import Mathlib

/-!
Verification of the Lute term domain model and term routes.

The repository excerpt contains the `/term` Flask routes
(`src/lute/term/routes.py`) and the unit tests of the `Term` domain
entity (`src/tests/unit/models/test_Term.py`).  The `Term` entity, its
tokenizer/normalizer and the `Language` collaborator are not part of the
excerpt, so they are modelled here from the specification
(`spec.md` sections 3 and 4); the route-level logic is embedded directly
from `routes.py`.
-/

namespace Lute

/-- Is this character a literal space?  After tab replacement the only
whitespace the normalizer deals with is the space character. -/
def isSp (c : Char) : Bool := c = ' '

/-- Whitespace as the normalizer sees it in raw input: spaces and tabs
(the spec limits the raw-term whitespace discussion to those two;
newlines mark different sentences and never reach a term). -/
def isWsChar (c : Char) : Bool := c = ' ' || c = '\t'

/-- Modelled from the spec: step 1 of `normalize` — replace every tab
character with a single space (spec 4.1 step 1). -/
def tabToSpace (c : Char) : Char := if c = '\t' then ' ' else c

/-- Modelled from the spec: collapse each run of consecutive spaces to a
single space (spec 4.1 step 2, first half). -/
def squeezeSpaces : List Char → List Char
  | [] => []
  | [c] => [c]
  | a :: b :: r =>
    if isSp a && isSp b then squeezeSpaces (b :: r)
    else a :: squeezeSpaces (b :: r)

/-- Modelled from the spec: strip trailing spaces (spec 4.1 step 2,
second half). -/
def rstrip : List Char → List Char
  | [] => []
  | c :: cs =>
    match rstrip cs with
    | [] => if isSp c then [] else [c]
    | r => c :: r

/-- Modelled from the spec: the whole normalization pipeline of spec 4.1
steps 1–2 — replace tabs by spaces, collapse whitespace runs, strip
leading and trailing whitespace. -/
def normalizeChars (l : List Char) : List Char :=
  rstrip ((squeezeSpaces (l.map tabToSpace)).dropWhile isSp)

/-- String wrapper for `normalizeChars`: the canonical display `text` of
a term (spec 4.1 steps 1–2). -/
def normalizeText (s : String) : String :=
  String.mk (normalizeChars s.data)

/-- Modelled from the spec: lowercasing used for `text_lc`
(spec 4.1 step 3). -/
def lowerStr (s : String) : String :=
  String.mk (s.data.map Char.toLower)

/-- The words of a character list: the maximal runs of non-space
characters, in order.  This is an independent rendering of the claimed
net effect of normalization, used to characterize `normalizeChars`. -/
def wordsOf : List Char → List (List Char)
  | [] => []
  | [c] => if isSp c then [] else [[c]]
  | c :: d :: r =>
    let ws := wordsOf (d :: r)
    if isSp c then ws
    else if isSp d then [c] :: ws
    else
      match ws with
      | [] => [[c]]
      | w :: t => (c :: w) :: t

/-- Join words with single separating spaces. -/
def joinWords : List (List Char) → List Char
  | [] => []
  | [w] => w
  | w :: x :: ys => w ++ ' ' :: joinWords (x :: ys)

/-- Modelled from the spec: the `Language` collaborator (spec section 3)
— identity, the word-character predicate used for tokenization, and the
sentence-split exception list (abbreviations such as "EE.UU."). -/
structure Language where
  lid : Nat
  wordChar : Char → Bool
  exceptions_split_sentences : List String

/-- Number of maximal runs of characters of constant class (word versus
non-word).  Each maximal run of word characters is one token and each
maximal run of non-word characters stuck between or around them is one
token, so a non-word run glued to a following space (for example an
apostrophe plus space) counts once (spec 4.1 step 4). -/
def countRuns (p : Char → Bool) : List Char → Nat
  | [] => 0
  | [_] => 1
  | a :: b :: r => (if p a = p b then 0 else 1) + countRuns p (b :: r)

/-- Modelled from the spec: tokenization (spec 4.1 steps 4–5).  If the
language's exception list has an entry equal to the text
case-insensitively, the whole text is one token; otherwise the tokens
are the maximal constant-class runs, with a floor of one. -/
def tokenCount (lang : Language) (text : String) : Nat :=
  if lang.exceptions_split_sentences.any
      (fun e => lowerStr e = lowerStr text) then 1
  else max 1 (countRuns lang.wordChar text.data)

/-- Modelled from the spec: the `Term` entity (spec section 3).  The
language is kept by identity; `parents` is the ordered set of
(language, text_lc) parent references. -/
structure Term where
  langId : Nat
  text : String
  text_lc : String
  token_count : Nat
  status : Int
  parents : List (Nat × String)
deriving DecidableEq, Repr

/-- Modelled from the spec: term construction from (language, raw text)
— normalization happens at construction (spec section 3, Lifecycle):
`text` is the normalized raw text, `text_lc` its lowercase form,
`token_count` the token count of the normalized text. -/
def Term.create (lang : Language) (raw : String) : Term :=
  let t := normalizeText raw
  { langId := lang.lid
    text := t
    text_lc := lowerStr t
    token_count := tokenCount lang t
    status := 1
    parents := [] }

/-- Modelled from the spec: `add_parent` (spec 4.2).  A candidate equal
to the term itself — same language and same `text_lc` — is silently
rejected; otherwise it is added idempotently. -/
def Term.add_parent (t : Term) (cand : Term) : Term :=
  if cand.langId = t.langId ∧ cand.text_lc = t.text_lc then t
  else if (cand.langId, cand.text_lc) ∈ t.parents then t
  else { t with parents := t.parents ++ [(cand.langId, cand.text_lc)] }

/-- Modelled from the spec: spec-based lookup (spec 4.3) — find a
persisted term with the same language and the same `text_lc` as the
spec term, or report none. -/
def find_by_spec (store : List Term) (spec : Term) : Option Term :=
  store.find? (fun t => decide (t.langId = spec.langId ∧ t.text_lc = spec.text_lc))

/-- A space-delimited test language in the shape of the suite's
`english` fixture: letters are word characters, no exceptions. -/
def englishLang : Language := ⟨1, Char.isAlpha, []⟩

/-- A test language in the shape of the suite's `spanish` fixture. -/
def spanishLang : Language := ⟨2, Char.isAlpha, []⟩

/-- The `spanish` fixture after the suite assigns
`exceptions_split_sentences = "EE.UU."`. -/
def spanishExc : Language := ⟨2, Char.isAlpha, ["EE.UU."]⟩

/-- The `Status` entity as the term routes consume it: only its id is
read (`routes.py` line 43). -/
structure Status where
  id : Nat
deriving DecidableEq, Repr

/-- Modelled from the spec: the UNKNOWN status sentinel
(spec section 3: "including an UNKNOWN sentinel, excluded from
user-facing status pickers").  `Status` itself is outside the excerpt;
the `edit` routes treat status 0 as the not-yet-set state, so the
sentinel is identified with id 0.  The route logic verified below only
compares ids against this constant, whatever its value. -/
def Status.UNKNOWN : Nat := 0

/-- From `routes.py` `index` (lines 36-49): the status picker passed to
the template is every status from the database whose id is not the
UNKNOWN sentinel. -/
def index_statuses (all_statuses : List Status) : List Status :=
  all_statuses.filter (fun s => decide (s.id ≠ Status.UNKNOWN))

/-- The business-object term the routes manipulate
(`lute.term.model.Term` is outside the excerpt; the routes verified
here read and write its `id`, `text`, `translation` and `status`
fields). -/
structure BTerm where
  id : Nat
  text : String
  translation : String
  status : Int
deriving DecidableEq, Repr

/-- From `routes.py` `edit` (lines 187-196): after the term is loaded
by id, a zero status is bumped to one before the form is handled. -/
def edit_status_adjust (term : BTerm) : BTerm :=
  if term.status = 0 then { term with status := 1 } else term

/-- From `routes.py` `edit_by_text` (lines 199-208): the identical
status adjustment after `find_or_new`. -/
def edit_by_text_status_adjust (term : BTerm) : BTerm :=
  if term.status = 0 then { term with status := 1 } else term

/-- Python `str.strip()` whitespace: the characters for which Python's
`str.isspace()` holds — the ASCII whitespace range, the C0 information
separators, NEL, no-break space, Ogham space mark, the Unicode en/em
space range, line and paragraph separators, narrow no-break space,
medium mathematical space and ideographic space. -/
def isPyWs (c : Char) : Bool :=
  (0x09 ≤ c.toNat && c.toNat ≤ 0x0d) ||
  (0x1c ≤ c.toNat && c.toNat ≤ 0x1f) ||
  c.toNat = 0x20 || c.toNat = 0x85 || c.toNat = 0xa0 ||
  c.toNat = 0x1680 ||
  (0x2000 ≤ c.toNat && c.toNat ≤ 0x200a) ||
  c.toNat = 0x2028 || c.toNat = 0x2029 || c.toNat = 0x202f ||
  c.toNat = 0x205f || c.toNat = 0x3000

/-- Python `str.strip()`: remove leading and trailing whitespace. -/
def pyStrip (s : String) : String :=
  String.mk (((s.data.dropWhile isPyWs).reverse.dropWhile isPyWs).reverse)

/-- A JSON entry returned by the term search route: the id, text,
translation and status of one matched term (`routes.py` lines 229-235). -/
structure SearchEntry where
  id : Nat
  text : String
  translation : String
  status : Int
deriving DecidableEq, Repr

/-- From `routes.py` `search_by_text_in_language` (lines 221-238): an
empty stripped search text or a language id of 0 short-circuits to an
empty list; otherwise every repository match is mapped to a JSON entry.
The repository lookup is passed in as the `find_matches` function. -/
def search_by_text_in_language (find_matches : Nat → String → List BTerm)
    (text : String) (langid : Nat) : List SearchEntry :=
  if pyStrip text = "" ∨ langid = 0 then []
  else (find_matches langid text).map
    (fun t => { id := t.id, text := t.text, translation := t.translation, status := t.status })

/-- Unfolding fact: `isSp` holds exactly on the space character. -/
theorem isSp_iff (c : Char) : isSp c = true ↔ c = ' ' := by
  simp [isSp]

/-- Collapsing spaces leaves a leading non-space character alone. -/
theorem squeezeSpaces_cons_nonsp (c : Char) (x : List Char) (h : isSp c = false) :
    squeezeSpaces (c :: x) = c :: squeezeSpaces x := by
  cases x with
  | nil => rfl
  | cons b r => simp [squeezeSpaces, h]

/-- Stripping trailing spaces commutes with a leading non-space
character. -/
theorem rstrip_cons_nonsp (c : Char) (x : List Char) (h : isSp c = false) :
    rstrip (c :: x) = c :: rstrip x := by
  cases hx : rstrip x with
  | nil => simp [rstrip, hx, h]
  | cons a t => simp [rstrip, hx]

/-- A leading space is dropped by `rstrip` when the rest strips to
nothing. -/
theorem rstrip_cons_sp_nil (x : List Char) (hx : rstrip x = []) :
    rstrip (' ' :: x) = [] := by
  simp [rstrip, hx, isSp]

/-- A leading space is kept by `rstrip` when the rest strips to
something. -/
theorem rstrip_cons_sp_cons (x : List Char) (a : Char) (t : List Char)
    (hx : rstrip x = a :: t) :
    rstrip (' ' :: x) = ' ' :: a :: t := by
  simp [rstrip, hx]

/-- Collapsing a space-headed list yields a single space followed by a
list with no leading space. -/
theorem squeezeSpaces_sp_shape (r : List Char) :
    ∃ y, squeezeSpaces (' ' :: r) = ' ' :: y ∧ y.dropWhile isSp = y := by
  induction r with
  | nil => exact ⟨[], rfl, rfl⟩
  | cons e r' ih =>
    cases he : isSp e
    · refine ⟨squeezeSpaces (e :: r'), ?_, ?_⟩
      · simp [squeezeSpaces, he]
      · rw [squeezeSpaces_cons_nonsp e r' he]
        rw [List.dropWhile_cons_of_neg (by simp [he])]
    · have he' : e = ' ' := (isSp_iff e).1 he
      subst he'
      obtain ⟨y, hy, hdy⟩ := ih
      refine ⟨y, ?_, hdy⟩
      rw [← hy]
      simp [squeezeSpaces, isSp]

/-- The words of a space-headed list are the words of its tail. -/
theorem wordsOf_cons_sp (r : List Char) : wordsOf (' ' :: r) = wordsOf r := by
  cases r with
  | nil => simp [wordsOf, isSp]
  | cons d t => simp [wordsOf, isSp]

/-- A list with a leading non-space character has at least one word. -/
theorem wordsOf_cons_nonsp_ne_nil (d : Char) (r : List Char) (h : isSp d = false) :
    wordsOf (d :: r) ≠ [] := by
  cases r with
  | nil => simp [wordsOf, h]
  | cons e r' =>
    simp only [wordsOf, h]
    split
    · simp_all
    · split
      · simp
      · split <;> simp

/-- The first word produced by `wordsOf` is never empty. -/
theorem wordsOf_head_ne_nil (l : List Char) :
    ∀ w t, wordsOf l = w :: t → w ≠ [] := by
  induction l with
  | nil => intro w t h; simp [wordsOf] at h
  | cons c cs ih =>
    cases cs with
    | nil =>
      intro w t h
      cases hc : isSp c <;> simp [wordsOf, hc] at h
      rw [← h.1]
      simp
    | cons d r =>
      intro w t h
      cases hc : isSp c
      · cases hd : isSp d
        · cases hws : wordsOf (d :: r) with
          | nil => simp [wordsOf, hc, hd, hws] at h; rw [← h.1]; simp
          | cons w' t' =>
            simp [wordsOf, hc, hd, hws] at h
            rw [← h.1]
            simp
        · simp [wordsOf, hc, hd] at h
          rw [← h.1]
          simp
      · simp only [wordsOf, hc, if_true] at h
        exact ih w t h

/-- When the space-join of the words collapses to nothing there are no
words at all. -/
theorem joinWords_wordsOf_eq_nil (r : List Char) (h : joinWords (wordsOf r) = []) :
    wordsOf r = [] := by
  cases hws : wordsOf r with
  | nil => rfl
  | cons w t =>
    exfalso
    have hw := wordsOf_head_ne_nil r w t hws
    rw [hws] at h
    cases t with
    | nil => exact hw h
    | cons x ys => simp [joinWords] at h

/-- Joining after prefixing the first word with a character prefixes
the join with that character. -/
theorem joinWords_cons_cons (c : Char) (w : List Char) (t : List (List Char)) :
    joinWords ((c :: w) :: t) = c :: joinWords (w :: t) := by
  cases t with
  | nil => rfl
  | cons x ys => simp [joinWords]

/-- A list of spaces only has no words. -/
theorem wordsOf_all_sp (l : List Char) (h : ∀ c ∈ l, isSp c = true) :
    wordsOf l = [] := by
  induction l with
  | nil => rfl
  | cons c cs ih =>
    have hc := h c (by simp)
    cases cs with
    | nil => simp [wordsOf, hc]
    | cons d r =>
      simp only [wordsOf, hc, if_true]
      exact ih (fun x hx => h x (by simp [hx]))

/-- Collapsing whitespace runs and stripping both ends is exactly the
single-space join of the maximal non-space runs. -/
theorem squeeze_strip_eq_joinWords (l : List Char) :
    rstrip ((squeezeSpaces l).dropWhile isSp) = joinWords (wordsOf l) := by
  induction l with
  | nil => rfl
  | cons c cs ih =>
    cases cs with
    | nil =>
      cases hc : isSp c <;>
        simp [squeezeSpaces, wordsOf, joinWords, rstrip, List.dropWhile_cons, hc]
    | cons d r =>
      cases hc : isSp c
      · cases hd : isSp d
        · -- c and d both non-space
          have e2 : squeezeSpaces (d :: r) = d :: squeezeSpaces r :=
            squeezeSpaces_cons_nonsp d r hd
          have hdw : (squeezeSpaces (d :: r)).dropWhile isSp = squeezeSpaces (d :: r) := by
            rw [e2, List.dropWhile_cons_of_neg (by simp [hd])]
          have ihx := ih
          rw [hdw] at ihx
          rw [squeezeSpaces_cons_nonsp c (d :: r) hc]
          rw [List.dropWhile_cons_of_neg (by simp [hc])]
          rw [rstrip_cons_nonsp c _ hc, ihx]
          obtain ⟨w, t, hws⟩ := List.exists_cons_of_ne_nil (wordsOf_cons_nonsp_ne_nil d r hd)
          have hrhs : wordsOf (c :: d :: r) = (c :: w) :: t := by
            simp only [wordsOf, hc, hd, hws]
            simp
          rw [hrhs, hws, joinWords_cons_cons]
        · -- c non-space, d a space
          have hd' : d = ' ' := (isSp_iff d).1 hd
          subst hd'
          obtain ⟨y, hy, hdy⟩ := squeezeSpaces_sp_shape r
          have ihy : rstrip y = joinWords (wordsOf r) := by
            have ihx := ih
            rw [hy, List.dropWhile_cons_of_pos (by simp [isSp]), hdy,
              wordsOf_cons_sp] at ihx
            exact ihx
          rw [squeezeSpaces_cons_nonsp c _ hc, hy]
          rw [List.dropWhile_cons_of_neg (by simp [hc])]
          rw [rstrip_cons_nonsp c _ hc]
          have hrhs : wordsOf (c :: ' ' :: r) = [c] :: wordsOf r := by
            simp only [wordsOf, hc, wordsOf_cons_sp]
            simp [isSp]
          rw [hrhs]
          cases hry : rstrip y with
          | nil =>
            have h0 : joinWords (wordsOf r) = [] := by rw [← ihy, hry]
            rw [rstrip_cons_sp_nil y hry, joinWords_wordsOf_eq_nil r h0]
            rfl
          | cons a t =>
            rw [rstrip_cons_sp_cons y a t hry]
            have hwr : wordsOf r ≠ [] := by
              intro h0
              rw [h0] at ihy
              simp [joinWords] at ihy
              rw [ihy] at hry
              exact List.cons_ne_nil a t hry.symm
            obtain ⟨w, ws', hws⟩ := List.exists_cons_of_ne_nil hwr
            rw [hws]
            have : joinWords ([c] :: w :: ws') = c :: ' ' :: joinWords (w :: ws') := by
              simp [joinWords]
            rw [this, ← hws, ← ihy, hry]
      · -- c is a space
        have hc' : c = ' ' := (isSp_iff c).1 hc
        subst hc'
        cases hd : isSp d
        · -- space then non-space
          have e1 : squeezeSpaces (' ' :: d :: r) = ' ' :: squeezeSpaces (d :: r) := by
            simp [squeezeSpaces, hd]
          rw [e1, List.dropWhile_cons_of_pos (by simp [isSp]), wordsOf_cons_sp]
          exact ih
        · -- space then space
          have hd' : d = ' ' := (isSp_iff d).1 hd
          subst hd'
          have e1 : squeezeSpaces (' ' :: ' ' :: r) = squeezeSpaces (' ' :: r) := by
            simp [squeezeSpaces, isSp]
          rw [e1, wordsOf_cons_sp]
          exact ih

/-- C1: for every term, adding a candidate identical to the term
itself — same language and same normalized `text_lc`, which covers both
the exact same instance and a distinct instance normalizing to the same
(language, text_lc) pair — is a silent no-op: the parents set is
unchanged; in particular a freshly constructed term's parents set stays
empty. -/
theorem C1_add_parent_self_noop (t cand : Term)
    (hl : cand.langId = t.langId)
    (hlc : cand.text_lc = t.text_lc) :
    (t.add_parent cand).parents = t.parents := by
  rw [Term.add_parent, if_pos ⟨hl, hlc⟩]

/-- C1 witness: the freshly constructed Spanish "gato" of the test keeps
an empty parents set when added to itself, both as the same instance and
as a distinct equal-normalizing instance, and a term that already has a
parent keeps exactly that parent list when a self-identical candidate is
added. -/
theorem C1_add_parent_self_noop_witness :
    ((Term.create spanishLang "gato").add_parent (Term.create spanishLang "gato")).parents = [] ∧
    ((Term.create spanishLang "gato").add_parent (Term.create spanishLang "GATO")).parents = [] ∧
    (({ Term.create spanishLang "gato" with parents := [(2, "perro")] }).add_parent
      { Term.create spanishLang "gato" with parents := [(2, "perro")] }).parents = [(2, "perro")] :=
  ⟨C1_add_parent_self_noop (Term.create spanishLang "gato") (Term.create spanishLang "gato") rfl rfl,
   C1_add_parent_self_noop (Term.create spanishLang "gato") (Term.create spanishLang "GATO") rfl (by decide),
   C1_add_parent_self_noop { Term.create spanishLang "gato" with parents := [(2, "perro")] }
     { Term.create spanishLang "gato" with parents := [(2, "perro")] } rfl rfl⟩

/-- C2: the eight token-count scenarios of the suite, for the
English-style space-delimited language. -/
theorem C2_token_counts :
    (Term.create englishLang "hola").token_count = 1 ∧
    (Term.create englishLang "    hola    ").token_count = 1 ∧
    (Term.create englishLang "  hola  gato").token_count = 3 ∧
    (Term.create englishLang "HOLA hay\tgato  ").token_count = 5 ∧
    (Term.create englishLang "  the CAT's pyjamas  ").token_count = 7 ∧
    (Term.create englishLang "A big CHUNK O' stuff").token_count = 9 ∧
    (Term.create englishLang "YOU'RE").token_count = 3 ∧
    (Term.create englishLang "...").token_count = 1 := by
  decide

/-- C3: for every constructed term, `text_lc` is exactly the lowercase
of the normalized `text`. -/
theorem C3_text_lc_is_lower_text (lang : Language) (raw : String) :
    (Term.create lang raw).text_lc = lowerStr (Term.create lang raw).text := rfl

/-- C4: spec-based lookup returns a stored term exactly when it has the
spec's language and `text_lc`; it returns none exactly when no stored
term matches. -/
theorem C4_find_by_spec (store : List Term) (spec : Term) :
    (∀ t, find_by_spec store spec = some t →
      t ∈ store ∧ t.langId = spec.langId ∧ t.text_lc = spec.text_lc) ∧
    (find_by_spec store spec = none ↔
      ∀ t ∈ store, ¬(t.langId = spec.langId ∧ t.text_lc = spec.text_lc)) := by
  constructor
  · intro t h
    have hm := List.mem_of_find?_eq_some h
    have hp := List.find?_some h
    simp only [decide_eq_true_eq] at hp
    exact ⟨hm, hp⟩
  · simp [find_by_spec]

/-- C4 witness: the persisted Spanish "gato" is found by the
case-differing spec "GATO" (the looked-up term is in the store and
matches the spec's language and lowercase text). -/
theorem C4_find_by_spec_witness :
    Term.create spanishLang "gato" ∈ [Term.create spanishLang "gato"] ∧
    (Term.create spanishLang "gato").langId = (Term.create spanishLang "GATO").langId ∧
    (Term.create spanishLang "gato").text_lc = (Term.create spanishLang "GATO").text_lc :=
  (C4_find_by_spec [Term.create spanishLang "gato"] (Term.create spanishLang "GATO")).1
    (Term.create spanishLang "gato") (by decide)

/-- C5: term construction is a total function of the raw string, and
the token count of every constructed term is at least one; the purely
punctuation "..." yields exactly one token. -/
theorem C5_token_count_floor (lang : Language) (raw : String) :
    1 ≤ (Term.create lang raw).token_count ∧
    (Term.create englishLang "...").token_count = 1 := by
  constructor
  · show 1 ≤ tokenCount lang (normalizeText raw)
    rw [tokenCount]
    split
    · exact Nat.le_refl 1
    · exact Nat.le_max_left 1 _
  · decide

/-- C6: when the language's exception list contains an entry equal to
the normalized text case-insensitively, the constructed term is a
single token and its text is exactly the normalized input, original
casing untouched. -/
theorem C6_exception_single_token (lang : Language) (raw : String)
    (h : (lang.exceptions_split_sentences.any
      (fun e => lowerStr e = lowerStr (normalizeText raw))) = true) :
    (Term.create lang raw).token_count = 1 ∧
    (Term.create lang raw).text = normalizeText raw := by
  constructor
  · show tokenCount lang (normalizeText raw) = 1
    rw [tokenCount, if_pos h]
  · rfl

/-- C6 witness: with exception entry "EE.UU." both the uppercase and
the lowercase inputs construct one-token terms, and the text keeps the
casing each input was given. -/
theorem C6_exception_single_token_witness :
    ((Term.create spanishExc "EE.UU.").token_count = 1 ∧
      (Term.create spanishExc "EE.UU.").text = normalizeText "EE.UU.") ∧
    ((Term.create spanishExc "ee.uu.").token_count = 1 ∧
      (Term.create spanishExc "ee.uu.").text = normalizeText "ee.uu.") ∧
    (Term.create spanishExc "EE.UU.").text = "EE.UU." ∧
    (Term.create spanishExc "ee.uu.").text = "ee.uu." :=
  ⟨C6_exception_single_token spanishExc "EE.UU." (by decide),
   C6_exception_single_token spanishExc "ee.uu." (by decide),
   by decide, by decide⟩

/-- C7: the normalized text is the input with tabs turned to single
spaces, whitespace runs collapsed to single spaces and both ends
stripped — equivalently, the single-space join of the maximal non-space
runs of the tab-replaced input, which keeps letter case untouched; an
input that is empty or whitespace-only normalizes to the empty text. -/
theorem C7_normalize_characterization (s : String) :
    normalizeText s = String.mk (joinWords (wordsOf (s.data.map tabToSpace))) ∧
    (s.data.all isWsChar = true → normalizeText s = "") := by
  constructor
  · exact congrArg String.mk (squeeze_strip_eq_joinWords (s.data.map tabToSpace))
  · intro h
    have hall : ∀ c ∈ s.data.map tabToSpace, isSp c = true := by
      intro c hc
      obtain ⟨c0, hc0, rfl⟩ := List.mem_map.1 hc
      have hw : isWsChar c0 = true := List.all_eq_true.1 h c0 hc0
      have : c0 = ' ' ∨ c0 = '\t' := by simpa [isWsChar] using hw
      rcases this with h1 | h1 <;> simp [tabToSpace, isSp, h1]
    have hnw : wordsOf (s.data.map tabToSpace) = [] := wordsOf_all_sp _ hall
    have e := congrArg String.mk (squeeze_strip_eq_joinWords (s.data.map tabToSpace))
    rw [hnw] at e
    exact e.trans (by rfl)

/-- C7 witness: a raw input with leading, doubled and tab whitespace
matches its word-join characterization and normalizes to "hola gato";
a whitespace-only input normalizes to the empty string. -/
theorem C7_normalize_characterization_witness :
    normalizeText "  hola \t gato  " =
      String.mk (joinWords (wordsOf (("  hola \t gato  ").data.map tabToSpace))) ∧
    normalizeText " \t " = "" ∧
    normalizeText "  hola \t gato  " = "hola gato" :=
  ⟨(C7_normalize_characterization "  hola \t gato  ").1,
   (C7_normalize_characterization " \t ").2 (by decide),
   by decide⟩

/-- C8: a status is in the index page's picker list exactly when it is
among the database statuses and its id is not the UNKNOWN sentinel. -/
theorem C8_index_statuses (all_statuses : List Status) (s : Status) :
    s ∈ index_statuses all_statuses ↔ s ∈ all_statuses ∧ s.id ≠ Status.UNKNOWN := by
  simp [index_statuses]

/-- C9: both term-edit routes bump a zero status to one before the form
is handled, leaving every other field alone, and leave a term with any
non-zero status entirely unchanged. -/
theorem C9_edit_status_bump (t : BTerm) :
    (t.status = 0 →
      edit_status_adjust t = { t with status := 1 } ∧
      edit_by_text_status_adjust t = { t with status := 1 }) ∧
    (t.status ≠ 0 →
      edit_status_adjust t = t ∧ edit_by_text_status_adjust t = t) := by
  constructor
  · intro h
    constructor <;> simp [edit_status_adjust, edit_by_text_status_adjust, h]
  · intro h
    constructor <;> simp [edit_status_adjust, edit_by_text_status_adjust, h]

/-- C9 witness: a status-0 term is bumped to status 1 by both routes
and a status-3 term is untouched. -/
theorem C9_edit_status_bump_witness :
    (edit_status_adjust ⟨7, "gato", "cat", 0⟩ = ⟨7, "gato", "cat", 1⟩ ∧
      edit_by_text_status_adjust ⟨7, "gato", "cat", 0⟩ = ⟨7, "gato", "cat", 1⟩) ∧
    (edit_status_adjust ⟨8, "perro", "dog", 3⟩ = ⟨8, "perro", "dog", 3⟩ ∧
      edit_by_text_status_adjust ⟨8, "perro", "dog", 3⟩ = ⟨8, "perro", "dog", 3⟩) :=
  ⟨(C9_edit_status_bump ⟨7, "gato", "cat", 0⟩).1 rfl,
   (C9_edit_status_bump ⟨8, "perro", "dog", 3⟩).2 (by decide)⟩

/-- C10: the search route answers the empty list — for every repository
function, so no lookup can influence the result — whenever the search
text strips to empty or the language id is 0; otherwise it maps each
repository match to an entry carrying exactly its id, text, translation
and status. -/
theorem C10_search_route (fm : Nat → String → List BTerm) (text : String) (langid : Nat) :
    (pyStrip text = "" → search_by_text_in_language fm text langid = []) ∧
    (langid = 0 → search_by_text_in_language fm text langid = []) ∧
    (pyStrip text ≠ "" → langid ≠ 0 →
      search_by_text_in_language fm text langid =
        (fm langid text).map (fun t => ⟨t.id, t.text, t.translation, t.status⟩)) := by
  refine ⟨fun h => ?_, fun h => ?_, fun h1 h2 => ?_⟩
  · simp [search_by_text_in_language, h]
  · simp [search_by_text_in_language, h]
  · simp [search_by_text_in_language, h1, h2]

/-- C10 witness: with a one-match repository, an ASCII-blank search
text, a no-break-space search text and a zero language id each give the
empty list, while a real search maps the match to its entry. -/
theorem C10_search_route_witness :
    search_by_text_in_language (fun _ _ => [⟨3, "gato", "cat", 2⟩]) "   " 5 = [] ∧
    search_by_text_in_language (fun _ _ => [⟨3, "gato", "cat", 2⟩]) "\u00a0" 5 = [] ∧
    search_by_text_in_language (fun _ _ => [⟨3, "gato", "cat", 2⟩]) "gato" 0 = [] ∧
    search_by_text_in_language (fun _ _ => [⟨3, "gato", "cat", 2⟩]) "gato" 5 =
      [⟨3, "gato", "cat", 2⟩] :=
  ⟨(C10_search_route (fun _ _ => [⟨3, "gato", "cat", 2⟩]) "   " 5).1 (by decide),
   (C10_search_route (fun _ _ => [⟨3, "gato", "cat", 2⟩]) "\u00a0" 5).1 (by decide),
   (C10_search_route (fun _ _ => [⟨3, "gato", "cat", 2⟩]) "gato" 0).2.1 rfl,
   (C10_search_route (fun _ _ => [⟨3, "gato", "cat", 2⟩]) "gato" 5).2.2 (by decide) (by decide)⟩

end Lute
